import Mathlib

/-!
Verification of the checkend-node error-reporting SDK core against its
specification.  The TypeScript sources are shallowly embedded: strings become
`List Char`, JSON-like runtime values become the inductive `JValue`, and the
stateful delivery queue becomes explicit state passing over `WorkerState`.
Each embedded definition mirrors one source function and keeps its name.
-/

namespace Checkend

/-! ## Sanitizer (src/filters/sanitize.ts) -/

/-- The literal marker `[FILTERED]` used for scrubbed values. -/
def FILTERED : List Char := "[FILTERED]".toList

/-- `TRUNCATE_LIMIT` from sanitize.ts. -/
def TRUNCATE_LIMIT : Nat := 10000

/-- `MAX_DEPTH` from sanitize.ts. -/
def MAX_DEPTH : Nat := 10

/-- The marker appended by `truncateString`. -/
def TRUNCATION_MARKER : List Char := "...[TRUNCATED]".toList

/-- Placeholder substituted for Buffer values. -/
def BUFFER_PLACEHOLDER : List Char := "[Buffer]".toList

/-- Embedding of `truncateString` from sanitize.ts: strings at most
`TRUNCATE_LIMIT` long pass through; longer ones keep their first
`TRUNCATE_LIMIT - 13` characters and gain the truncation marker. -/
def truncateString (str : List Char) : List Char :=
  if str.length ≤ TRUNCATE_LIMIT then str
  else str.take (TRUNCATE_LIMIT - 13) ++ TRUNCATION_MARKER

/-- JSON-like runtime values handled by the sanitizer: null/undefined,
booleans, numbers, strings, arrays, plain objects (ordered key/value lists,
as `Object.keys` iteration order), and binary Buffers. -/
inductive JValue where
  | vnull : JValue
  | vbool : Bool → JValue
  | vnum : Int → JValue
  | vstr : List Char → JValue
  | varr : List JValue → JValue
  | vobj : List (List Char × JValue) → JValue
  | vbuf : JValue

/-- Lower-casing of a string, as JavaScript `toLowerCase` on ASCII data. -/
def toLowerList (s : List Char) : List Char := s.map Char.toLower

/-- Boolean substring test: `containsSub pat s` holds when `pat` occurs
contiguously inside `s`. -/
def containsSub (pat : List Char) : List Char → Bool
  | [] => pat.isEmpty
  | x :: xs => pat.isPrefixOf (x :: xs) || containsSub pat xs

/-- Semantics of `buildPattern(keys).test(s)` from sanitize.ts: the compiled
regex is a case-insensitive alternation of the regex-escaped lower-cased
keys, so testing it against a string holds exactly when some key, lower-cased,
occurs as a substring; an empty key list compiles to a never-matching regex. -/
def patternTest (keys : List (List Char)) (s : List Char) : Bool :=
  if keys = [] then false
  else keys.any fun k => containsSub (toLowerList k) s

/-- Embedding of `shouldFilter`: empty keys are never filtered, other keys are
lower-cased and tested against the compiled pattern. -/
def shouldFilter (keys : List (List Char)) (key : List Char) : Bool :=
  if key = [] then false
  else patternTest keys (toLowerList key)

mutual

/-- Embedding of `process` from sanitize.ts.  The branch order follows the
source: depth cap, null, array, Buffer, object, string, all other scalars. -/
def process (keys : List (List Char)) (depth : Nat) (v : JValue) : JValue :=
  if depth > MAX_DEPTH then .vstr FILTERED
  else
    match v with
    | .vnull => .vnull
    | .varr xs => .varr (processList keys (depth + 1) xs)
    | .vbuf => .vstr BUFFER_PLACEHOLDER
    | .vobj fs => .vobj (processFields keys depth fs)
    | .vstr s => .vstr (truncateString s)
    | .vbool b => .vbool b
    | .vnum n => .vnum n
termination_by sizeOf v

/-- Element-wise processing of an array, as `obj.map((item) =>
this.process(item, depth + 1))`; the incremented depth is supplied by the
caller. -/
def processList (keys : List (List Char)) (depth : Nat) (l : List JValue) :
    List JValue :=
  match l with
  | [] => []
  | x :: xs => process keys depth x :: processList keys depth xs
termination_by sizeOf l

/-- Embedding of `processObject`: filtered keys get the `[FILTERED]` marker,
other values are processed one level deeper. -/
def processFields (keys : List (List Char)) (depth : Nat)
    (l : List (List Char × JValue)) : List (List Char × JValue) :=
  match l with
  | [] => []
  | (k, v) :: fs =>
      (k, if shouldFilter keys k then .vstr FILTERED else process keys (depth + 1) v)
        :: processFields keys depth fs
termination_by sizeOf l

end

/-- Embedding of `SanitizeFilter.sanitize`: `deepClone` produces a structurally
identical value (values here have no aliasing), so sanitizing is processing
the value at depth 0. -/
def sanitize (keys : List (List Char)) (v : JValue) : JValue :=
  process keys 0 v

/-! ## C5: key filtering on mappings -/

/-- The claim's reading of "the key's lowercase form matches the
case-insensitive pattern compiled from K": the compiled pattern applied to the
lower-cased key, with no further guard. -/
def claimPatternMatches (keys : List (List Char)) (key : List Char) : Bool :=
  patternTest keys (toLowerList key)

/-! ## Notice builder (src/notice.ts) -/

/-- `MAX_BACKTRACE_LINES` from notice.ts. -/
def MAX_BACKTRACE_LINES : Nat := 100

/-- `MAX_MESSAGE_LENGTH` from notice.ts. -/
def MAX_MESSAGE_LENGTH : Nat := 10000

/-- The placeholder substituted for the configured root path. -/
def PROJECT_ROOT_MARKER : List Char := "[PROJECT_ROOT]".toList

/-- The structural marker identifying a stack-frame line. -/
def AT_MARKER : List Char := "at ".toList

/-- Whitespace stripped by JavaScript `String.prototype.trim` (the ASCII
characters that occur in stack-trace text). -/
def isWhitespaceChar (c : Char) : Bool :=
  c = ' ' || c = '\t' || c = '\n' || c = '\r'

/-- JavaScript `trim`: drop whitespace from both ends. -/
def trim (s : List Char) : List Char :=
  ((s.dropWhile isWhitespaceChar).reverse.dropWhile isWhitespaceChar).reverse

/-- JavaScript `String.prototype.replace` with a string pattern: replaces only
the FIRST occurrence of `pat` in `s` with `rep` (and inserts `rep` at the
start when `pat` is empty), returning `s` unchanged when `pat` does not
occur. -/
def replaceFirst (s pat rep : List Char) : List Char :=
  match s with
  | [] => if pat.isPrefixOf ([] : List Char) then rep else []
  | x :: xs =>
      if pat.isPrefixOf (x :: xs) then rep ++ (x :: xs).drop pat.length
      else x :: replaceFirst xs pat rep

/-- Embedding of `cleanBacktraceLine`: `if (!rootPath) return line` (covers
both an absent and an empty root path), else replace the root path with the
placeholder — a single-occurrence `String.replace`. -/
def cleanBacktraceLine (line : List Char) (rootPath : Option (List Char)) : List Char :=
  match rootPath with
  | none => line
  | some root =>
      if root.isEmpty then line else replaceFirst line root PROJECT_ROOT_MARKER

/-- Embedding of `parseBacktrace`: absent or empty stack text gives no frames;
otherwise split into lines, keep the lines whose trimmed form starts with the
`at ` marker, clean each trimmed line, and cap the count. -/
def parseBacktrace (stack : Option (List Char)) (rootPath : Option (List Char)) :
    List (List Char) :=
  match stack with
  | none => []
  | some s =>
      if s.isEmpty then []
      else
        (((s.splitOn '\n').filter fun line => AT_MARKER.isPrefixOf (trim line)).map
            fun line => cleanBacktraceLine (trim line) rootPath).take
          MAX_BACKTRACE_LINES

/-- Embedding of `truncateMessage` from notice.ts. -/
def truncateMessage (message : List Char) : List Char :=
  if message.isEmpty then []
  else if message.length ≤ MAX_MESSAGE_LENGTH then message
  else message.take (MAX_MESSAGE_LENGTH - 3) ++ "...".toList

/-- The `Notice` record of src/types.ts, with mapping-valued fields embedded
as ordered key/value lists. -/
structure Notice where
  errorClass : List Char
  message : List Char
  backtrace : List (List Char)
  fingerprint : Option (List Char)
  tags : List (List Char)
  context : List (List Char × JValue)
  request : List (List Char × JValue)
  user : List (List Char × JValue)
  environment : Option (List Char)
  occurredAt : List Char
  appName : Option (List Char)
  revision : Option (List Char)

/-- A JavaScript `Error` as consumed by `createNotice`: name, message and the
raw stack text (absent or empty strings are falsy). -/
structure JsError where
  name : List Char
  message : List Char
  stack : Option (List Char)

/-- The options record accepted by `createNotice`. -/
structure CreateNoticeOptions where
  context : List (List Char × JValue)
  request : List (List Char × JValue)
  user : List (List Char × JValue)
  fingerprint : Option (List Char)
  tags : Option (List (List Char))
  environment : Option (List Char)
  rootPath : Option (List Char)
  appName : Option (List Char)
  revision : Option (List Char)

/-- Embedding of `createNotice`; `now` stands for the ambient clock value
`new Date().toISOString()`. -/
def createNotice (error : JsError) (options : CreateNoticeOptions) (now : List Char) :
    Notice :=
  { errorClass := if error.name.isEmpty then "Error".toList else error.name
    message := truncateMessage
      (if error.message.isEmpty then "Unknown error".toList else error.message)
    backtrace := parseBacktrace error.stack options.rootPath
    fingerprint := options.fingerprint
    tags := options.tags.getD []
    context := options.context
    request := options.request
    user := options.user
    environment := options.environment
    occurredAt := now
    appName := options.appName
    revision := options.revision }

/-! ## Wire payload (src/notice.ts toPayload) -/

/-- Modelled from the spec: the SDK version exported by src/version.ts is not
among the provided sources; the notifier block embeds it verbatim and no claim
depends on its value, so it is modelled as a fixed constant string. -/
def VERSION : List Char := "0.0.0".toList

/-- Modelled from the spec: the host runtime version `process.version`,
embedded verbatim in the notifier block. -/
def NODE_VERSION : List Char := "v18.0.0".toList

/-- The notifier metadata block. -/
structure Notifier where
  name : List Char
  version : List Char
  language : List Char
  language_version : List Char

/-- The `error` block of the wire payload; the source key `class` is spelled
`cls` here because `class` is a Lean keyword. -/
structure ErrorBlock where
  cls : List Char
  message : List Char
  backtrace : List (List Char)
  occurred_at : List Char
  fingerprint : Option (List Char)
  tags : Option (List (List Char))

/-- The wire-format payload produced by `toPayload`. -/
structure NoticePayload where
  error : ErrorBlock
  context : List (List Char × JValue)
  request : List (List Char × JValue)
  user : List (List Char × JValue)
  notifier : Notifier

/-- Association-list lookup on a mapping (first match wins, as JavaScript
property access on our spread-built objects). -/
def getKey : List (List Char × JValue) → List Char → Option JValue
  | [], _ => none
  | p :: rest, key => if p.1 = key then some p.2 else getKey rest key

/-- JavaScript object spread `{...m, key: v}`: an existing key keeps its
position and takes the new value; a fresh key is appended. -/
def setKey (m : List (List Char × JValue)) (key : List Char) (v : JValue) :
    List (List Char × JValue) :=
  if (getKey m key).isSome then
    m.map fun p => if p.1 = key then (key, v) else p
  else m ++ [(key, v)]

/-- JavaScript truthiness of an optional string: absent and empty are falsy. -/
def truthy : Option (List Char) → Bool
  | none => false
  | some s => !s.isEmpty

/-- The conditional spread `...(opt ? { key: opt } : {})` used by
`toPayload` to fold environment/app-name/revision into the context block. -/
def addIfTruthy (m : List (List Char × JValue)) (key : List Char) :
    Option (List Char) → List (List Char × JValue)
  | none => m
  | some s => if s.isEmpty = true then m else setKey m key (.vstr s)

/-- Context-block key for the environment name. -/
def ENV_KEY : List Char := "environment".toList

/-- Context-block key for the application name. -/
def APP_NAME_KEY : List Char := "app_name".toList

/-- Context-block key for the revision. -/
def REVISION_KEY : List Char := "revision".toList

/-- Embedding of `toPayload` from notice.ts. -/
def toPayload (notice : Notice) : NoticePayload :=
  { error :=
      { cls := notice.errorClass
        message := notice.message
        backtrace := notice.backtrace
        occurred_at := notice.occurredAt
        fingerprint := notice.fingerprint
        tags := if notice.tags.length > 0 then some notice.tags else none }
    context :=
      addIfTruthy
        (addIfTruthy (addIfTruthy notice.context ENV_KEY notice.environment)
          APP_NAME_KEY notice.appName)
        REVISION_KEY notice.revision
    request := notice.request
    user := notice.user
    notifier :=
      { name := "@checkend/node".toList
        version := VERSION
        language := "javascript".toList
        language_version := NODE_VERSION } }

/-! ## Pre-send filter callbacks (runBeforeNotifyCallbacks in src/index.ts) -/

/-- Observable outcome of one `beforeNotify` callback invocation: it returns
the literal `false` (a veto), returns anything else, or throws. -/
inductive CbOutcome where
  | vetoes : CbOutcome
  | proceeds : CbOutcome
  | raises : CbOutcome
deriving DecidableEq

/-- Embedding of `runBeforeNotifyCallbacks`: iterate the configured callbacks
in order; a callback returning the literal `false` stops the loop and vetoes
the notice; a callback that throws is caught locally (a warning is logged) and
iteration continues; any other return continues.  The result pairs the
send/drop decision with the number of callbacks actually invoked. -/
def runBeforeNotifyCallbacks : List CbOutcome → Bool × Nat
  | [] => (true, 0)
  | .vetoes :: _ => (false, 1)
  | .proceeds :: rest =>
      let r := runBeforeNotifyCallbacks rest
      (r.1, r.2 + 1)
  | .raises :: rest =>
      let r := runBeforeNotifyCallbacks rest
      (r.1, r.2 + 1)

/-- `notify`'s decision: the notice is handed to `sendNotice` exactly when
`runBeforeNotifyCallbacks` returns true. -/
def noticeSent (cbs : List CbOutcome) : Bool :=
  (runBeforeNotifyCallbacks cbs).1

/-! ## Transport (src/client.ts) -/

/-- The parsed success body `{id, problem_id}`. -/
structure ApiResponse where
  id : Int
  problem_id : Int
deriving DecidableEq

/-- Outcome of the single `fetch` attempt made by `Client.send`: an HTTP
response with a status and, for our purposes, the JSON-parse result of its
body (`none` when the body does not parse as `{id, problem_id}`); an abort
fired by the timeout; or any other network error. -/
inductive FetchOutcome where
  | response : Nat → Option ApiResponse → FetchOutcome
  | timedOut : FetchOutcome
  | networkError : FetchOutcome
deriving DecidableEq

/-- Embedding of `Client.handleResponse`: only HTTP 201 yields the parsed
body; every other status logs a classified diagnostic and returns null.  A
201 whose body fails to parse throws inside the caller's try block and is
caught there, so it surfaces as null as well. -/
def handleResponse (status : Nat) (body : Option ApiResponse) : Option ApiResponse :=
  if status = 201 then body else none

/-- Embedding of `Client.send`: one fetch attempt raced against an abort
timer; the abort and every network error are caught and become null, an HTTP
response is classified by `handleResponse`.  The function is total: no path
throws past this boundary. -/
def send : FetchOutcome → Option ApiResponse
  | .response status body => handleResponse status body
  | .timedOut => none
  | .networkError => none

/-! ## Delivery queue (Worker in src/worker.ts) -/

/-- `MAX_THROTTLE` from worker.ts. -/
def MAX_THROTTLE : Nat := 100

/-- A queue entry: a serialized payload, the shutdown marker, or a flush
marker (whose completion callback we need not track for these claims). -/
inductive QueueItem where
  | payload : NoticePayload → QueueItem
  | shutdownMarker : QueueItem
  | flushMarker : QueueItem

/-- The Worker's mutable state: `{queue, processing, shutdown, throttle}`. -/
structure WorkerState where
  queue : List QueueItem
  processing : Bool
  shutdown : Bool
  throttle : Nat

/-- Embedding of `Worker.throttleDelay`:
`Math.round((Math.pow(1.05, throttle) - 1) * 1000)`, computed here in exact
rational arithmetic; `round` is round-half-up, agreeing with `Math.round` on
these nonnegative values. -/
def throttleDelay (throttle : Nat) : ℤ :=
  round ((((105 : ℚ) / 100) ^ throttle - 1) * 1000)

/-- Embedding of `Worker.incThrottle`: `min(throttle + 1, MAX_THROTTLE)`. -/
def incThrottle (t : Nat) : Nat := min (t + 1) MAX_THROTTLE

/-- Embedding of `Worker.decThrottle`: `max(throttle - 1, 0)`, which on `Nat`
is truncated subtraction. -/
def decThrottle (t : Nat) : Nat := t - 1

/-- Embedding of `Worker.sendWithThrottle` as a state transformer: given the
current throttle level and whether the client send succeeds (a null result is
a failure), it reports the sleep performed before the send (`none` when the
level is zero) and the throttle level after the send. -/
def sendWithThrottle (t : Nat) (ok : Bool) : Option ℤ × Nat :=
  (if t > 0 then some (throttleDelay t) else none,
   if ok then decThrottle t else incThrottle t)

/-- Everything observable about one run of the drain loop: the payloads handed
to the client in order, the (level, sleep) performed before each send, the
final throttle level, and the items abandoned behind a shutdown marker. -/
structure DrainResult where
  sent : List NoticePayload
  delays : List (Nat × Option ℤ)
  finalThrottle : Nat
  abandoned : List QueueItem

/-- Embedding of the `Worker.processQueue` drain loop over a fixed queue:
pop the front item; a shutdown marker ends the loop immediately, leaving the
items behind it abandoned; a flush marker resolves its callback and
continues; a payload goes through the throttle-aware send path, awaited
before the next pop.  `ok i` is the outcome of the i-th send. -/
def processQueue (ok : Nat → Bool) : List QueueItem → Nat → Nat → DrainResult
  | [], t, _ => ⟨[], [], t, []⟩
  | .shutdownMarker :: rest, t, _ => ⟨[], [], t, rest⟩
  | .flushMarker :: rest, t, i => processQueue ok rest t i
  | .payload p :: rest, t, i =>
      let step := sendWithThrottle t (ok i)
      let r := processQueue ok rest step.2 (i + 1)
      ⟨p :: r.sent, (t, step.1) :: r.delays, r.finalThrottle, r.abandoned⟩

/-- Embedding of `Worker.push`: rejected (false, notice dropped, state
unchanged) when shutdown has begun or the queue is at the configured
capacity; otherwise the notice is serialized via `toPayload`, appended, and
the drain loop is triggered. -/
def push (maxQueueSize : Nat) (st : WorkerState) (notice : Notice) :
    WorkerState × Bool :=
  if st.shutdown = true then (st, false)
  else if st.queue.length ≥ maxQueueSize then (st, false)
  else ({ st with queue := st.queue ++ [.payload (toPayload notice)] }, true)

/-- Embedding of `Worker.stop`'s synchronous effect: a second stop returns
early; otherwise shutdown is marked and the shutdown marker is appended,
with no capacity check. -/
def stop (st : WorkerState) : WorkerState :=
  if st.shutdown = true then st
  else { st with shutdown := true, queue := st.queue ++ [.shutdownMarker] }

/-- Embedding of `Worker.flush`'s synchronous effect: the flush marker is
appended unconditionally — no shutdown and no capacity check. -/
def flush (st : WorkerState) : WorkerState :=
  { st with queue := st.queue ++ [.flushMarker] }

/-- The guard at the top of `processQueue`: a drain loop starts only when one
is not already running and the queue is non-empty. -/
def startsDrainLoop (st : WorkerState) : Bool :=
  !st.processing && !st.queue.isEmpty

/-- `push` folded over a list of notices, collecting each call's result. -/
def pushAll (maxQ : Nat) (st : WorkerState) : List Notice → WorkerState × List Bool
  | [] => (st, [])
  | n :: ns =>
      let r := push maxQ st n
      let rest := pushAll maxQ r.1 ns
      (rest.1, r.2 :: rest.2)

/-- A minimal concrete notice used by the worker witnesses. -/
def sampleNotice (c : Char) : Notice :=
  { errorClass := (c :: []), message := [], backtrace := [], fingerprint := none,
    tags := [], context := [], request := [], user := [], environment := none,
    occurredAt := [], appName := none, revision := none }

/-! ## C1: string truncation -/

/-- Top-level sanitization of a bare string is exactly `truncateString`. -/
theorem sanitize_vstr (keys : List (List Char)) (s : List Char) :
    sanitize keys (.vstr s) = .vstr (truncateString s) := by
  rw [sanitize, process]
  simp [MAX_DEPTH]

/-- C1 counterexample: the claim says a string longer than the 10000-character
cap sanitizes to a string of length exactly 10000, but a 10001-character input
sanitizes to its first 9987 characters plus the 14-character marker, i.e. to a
string of length 10001. -/
theorem sanitize_string_cap_counterexample :
    sanitize [] (.vstr (List.replicate 10001 'a'))
      = .vstr (List.replicate 9987 'a' ++ TRUNCATION_MARKER)
    ∧ (List.replicate 9987 'a' ++ TRUNCATION_MARKER).length ≠ 10000 := by
  have hm : TRUNCATION_MARKER.length = 14 := by decide
  constructor
  · rw [sanitize_vstr, truncateString,
      if_neg (by rw [List.length_replicate]; norm_num [TRUNCATE_LIMIT]),
      List.take_replicate]
    norm_num [TRUNCATE_LIMIT]
  · rw [List.length_append, List.length_replicate, hm]
    omega

/-- C1 amended: for any filter-key list, `sanitize` leaves strings of length
at most 10000 unchanged, and truncates longer strings to their first 9987
characters followed by the truncation marker, giving length exactly 10001
(not 10000) and ending in the marker. -/
theorem sanitize_string_truncation_amended (keys : List (List Char)) (s : List Char) :
    (10000 < s.length →
        sanitize keys (.vstr s) = .vstr (s.take 9987 ++ TRUNCATION_MARKER)
        ∧ (s.take 9987 ++ TRUNCATION_MARKER).length = 10001)
    ∧ (s.length ≤ 10000 → sanitize keys (.vstr s) = .vstr s) := by
  have hm : TRUNCATION_MARKER.length = 14 := by decide
  constructor
  · intro h
    constructor
    · rw [sanitize_vstr, truncateString, if_neg (by simp [TRUNCATE_LIMIT]; omega)]
      norm_num [TRUNCATE_LIMIT]
    · rw [List.length_append, List.length_take, hm]
      omega
  · intro h
    rw [sanitize_vstr, truncateString, if_pos (by simpa [TRUNCATE_LIMIT] using h)]

/-- Witness for the amended C1 at concrete inputs: a 10001-character string is
truncated to length 10001, and a 2-character string passes through. -/
theorem sanitize_string_truncation_amended_witness :
    ((List.replicate 10001 'a').take 9987 ++ TRUNCATION_MARKER).length = 10001
    ∧ sanitize [] (.vstr ('a' :: 'b' :: [])) = .vstr ('a' :: 'b' :: []) := by
  refine ⟨((sanitize_string_truncation_amended [] (List.replicate 10001 'a')).1 ?_).2,
    (sanitize_string_truncation_amended [] ('a' :: 'b' :: [])).2 ?_⟩
  · rw [List.length_replicate]
    omega
  · simp

/-- `processFields` maps each field, filtering matching keys and processing
the other values one level deeper. -/
theorem processFields_map (keys : List (List Char)) (depth : Nat)
    (l : List (List Char × JValue)) :
    processFields keys depth l
      = l.map fun p =>
          (p.1, if shouldFilter keys p.1 then JValue.vstr FILTERED
                else process keys (depth + 1) p.2) := by
  induction l with
  | nil => rw [processFields]; rfl
  | cons p rest ih =>
      obtain ⟨k, v⟩ := p
      rw [processFields, ih]
      rfl

/-- C5 counterexample: with filter-key set `K = [""]` the compiled pattern
matches every string, in particular the lowercase form of the empty key, yet
`sanitize` leaves the empty key's value untouched because `shouldFilter`
exempts empty keys before consulting the pattern; so the claim's "every key
whose lowercase form matches the pattern has value [FILTERED]" fails on the
mapping `{"": 1}`. -/
theorem sanitize_mapping_counterexample :
    claimPatternMatches [[]] [] = true
    ∧ sanitize [[]] (.vobj [([], .vnum 1)]) = .vobj [([], .vnum 1)]
    ∧ JValue.vnum 1 ≠ JValue.vstr FILTERED := by
  refine ⟨rfl, ?_, fun h => JValue.noConfusion h⟩
  rw [sanitize, process]
  simp [MAX_DEPTH, processFields_map, shouldFilter]
  rw [process]
  simp [MAX_DEPTH]

/-- C5 amended: in `sanitize(m)` every non-empty key of `m` whose lowercase
form matches the compiled pattern has value `[FILTERED]` regardless of the
original value's type, every other key's value is recursively sanitized with
the mapping's key structure unchanged, and an empty filter-key set never
filters anything; `shouldFilter` agrees with the pattern match exactly on
non-empty keys. -/
theorem sanitize_mapping_amended (keys : List (List Char))
    (fields : List (List Char × JValue)) :
    sanitize keys (.vobj fields)
      = .vobj (fields.map fun p =>
          (p.1, if shouldFilter keys p.1 then JValue.vstr FILTERED
                else process keys 1 p.2))
    ∧ (∀ k, shouldFilter keys k = (!k.isEmpty && claimPatternMatches keys k))
    ∧ (keys = [] → ∀ k, shouldFilter keys k = false) := by
  refine ⟨?_, ?_, ?_⟩
  · rw [sanitize, process]
    simp [MAX_DEPTH, processFields_map]
  · intro k
    cases k with
    | nil => simp [shouldFilter]
    | cons c cs => simp [shouldFilter, claimPatternMatches]
  · intro hk k
    subst hk
    cases k with
    | nil => simp [shouldFilter]
    | cons c cs => simp [shouldFilter, patternTest]

/-- Witness for the amended C5 on a concrete mapping: the key `p` is not
filtered by the empty filter-key set, and sanitization keeps the mapping's
structure. -/
theorem sanitize_mapping_amended_witness :
    sanitize [] (.vobj [(['p'], .vnum 2)]) = .vobj [(['p'], .vnum 2)]
    ∧ shouldFilter [] ['p'] = false := by
  have h := sanitize_mapping_amended [] [(['p'], .vnum 2)]
  refine ⟨?_, h.2.2 rfl ['p']⟩
  rw [h.1]
  have h2 := h.2.2 rfl ['p']
  rw [List.map_cons, List.map_nil, h2]
  simp only [if_neg Bool.false_ne_true]
  rw [process]
  simp [MAX_DEPTH]

/-! ## C2: backtrace parsing and root-path cleaning -/

/-- C2 counterexample: for a stack whose frame line contains the root path
`/app` twice, the cleaned frame produced by `createNotice` still contains the
root path — `String.replace` with a string pattern only replaces the first
occurrence, so "no frame string contains the root path" fails. -/
theorem backtrace_root_occurrence_counterexample :
    (createNotice
        { name := ("Boom").toList, message := ("x").toList,
          stack := some (("Boom\n  at /app/x (/app/y)").toList) }
        { context := [], request := [], user := [], fingerprint := none,
          tags := none, environment := none,
          rootPath := some (("/app").toList), appName := none, revision := none }
        []).backtrace
      = [("at [PROJECT_ROOT]/x (/app/y)").toList]
    ∧ containsSub (("/app").toList) (("at [PROJECT_ROOT]/x (/app/y)").toList) = true := by
  constructor
  · decide
  · decide

/-- C2 amended: with a configured root path, the backtrace built by
`createNotice` keeps only lines whose trimmed form bears the `at ` marker,
caps the frame count at 100, and rewrites each kept line by replacing the
FIRST literal occurrence of the root path with `[PROJECT_ROOT]` (further
occurrences survive). -/
theorem backtrace_clean_amended (e : JsError) (opts : CreateNoticeOptions)
    (now : List Char) (root : List Char) (hroot : opts.rootPath = some root) :
    ((createNotice e opts now).backtrace).length ≤ 100
    ∧ ∀ f ∈ (createNotice e opts now).backtrace,
        ∃ s line, e.stack = some s ∧ line ∈ s.splitOn '\n'
          ∧ AT_MARKER.isPrefixOf (trim line) = true
          ∧ f = cleanBacktraceLine (trim line) (some root) := by
  have hbt : (createNotice e opts now).backtrace = parseBacktrace e.stack opts.rootPath := rfl
  rw [hbt, hroot]
  cases e.stack with
  | none => exact ⟨by simp [parseBacktrace], by simp [parseBacktrace]⟩
  | some s =>
      rw [parseBacktrace]
      by_cases hs : s.isEmpty
      · simp [hs]
      · rw [if_neg hs]
        constructor
        · calc (List.take MAX_BACKTRACE_LINES _).length
              ≤ MAX_BACKTRACE_LINES := List.length_take_le _ _
          _ ≤ 100 := le_refl _
        · intro f hf
          have hf' := List.mem_of_mem_take hf
          obtain ⟨line, hline, hfe⟩ := List.mem_map.mp hf'
          have hmem := List.mem_filter.mp hline
          exact ⟨s, line, rfl, hmem.1, hmem.2, hfe.symm⟩

/-- Witness for the amended C2 at the concrete error of the counterexample:
the backtrace length is within the cap, and its sole frame is the cleaned
trimmed frame line. -/
theorem backtrace_clean_amended_witness :
    ((createNotice
        { name := ("Boom").toList, message := ("x").toList,
          stack := some (("Boom\n  at /app/i.js:1:1").toList) }
        { context := [], request := [], user := [], fingerprint := none,
          tags := none, environment := none,
          rootPath := some (("/app").toList), appName := none, revision := none }
        []).backtrace).length ≤ 100 :=
  (backtrace_clean_amended _ _ _ _ rfl).1

/-- Lookup after the update map, at the updated key, yields the new value as
soon as the key occurs. -/
theorem getKey_update_map (m : List (List Char × JValue)) (key : List Char)
    (v : JValue) (h : (getKey m key).isSome = true) :
    getKey (m.map fun p => if p.1 = key then (key, v) else p) key = some v := by
  induction m with
  | nil => simp [getKey] at h
  | cons p rest ih =>
      by_cases hp : p.1 = key
      · simp [getKey, hp]
      · simp only [getKey, hp, if_false, List.map_cons, if_neg hp] at h ⊢
        exact ih h

/-- Lookup after the update map, at any other key, is unchanged. -/
theorem getKey_update_map_other (m : List (List Char × JValue))
    (key other : List Char) (v : JValue) (hne : other ≠ key) :
    getKey (m.map fun p => if p.1 = key then (key, v) else p) other
      = getKey m other := by
  induction m with
  | nil => simp [getKey]
  | cons p rest ih =>
      by_cases hp : p.1 = key
      · have h1 : ¬(key = other) := fun hc => hne hc.symm
        have h2 : ¬(p.1 = other) := by
          rw [hp]
          exact h1
        simp only [List.map_cons, if_pos hp, getKey, h1, h2, if_false]
        exact ih
      · by_cases ho : p.1 = other
        · simp [getKey, hp, ho, hne]
        · simp only [List.map_cons, if_neg hp, getKey, ho, if_false]
          exact ih

/-- Lookup after appending a fresh key, at the fresh key, finds it when it was
absent before. -/
theorem getKey_append_self (m : List (List Char × JValue)) (key : List Char)
    (v : JValue) (h : getKey m key = none) :
    getKey (m ++ [(key, v)]) key = some v := by
  induction m with
  | nil => simp [getKey]
  | cons p rest ih =>
      by_cases hp : p.1 = key
      · simp [getKey, hp] at h
      · simp only [getKey, hp, if_false, List.cons_append, if_neg hp] at h ⊢
        exact ih h

/-- Lookup after appending a fresh key, at any other key, is unchanged. -/
theorem getKey_append_other (m : List (List Char × JValue))
    (key other : List Char) (v : JValue) (hne : other ≠ key) :
    getKey (m ++ [(key, v)]) other = getKey m other := by
  induction m with
  | nil =>
      have h1 : ¬(key = other) := fun hc => hne hc.symm
      simp [getKey, h1]
  | cons p rest ih =>
      by_cases ho : p.1 = other
      · simp [getKey, ho]
      · simp only [List.cons_append, getKey, ho, if_false]
        exact ih

/-- Updating a key makes it readable back. -/
theorem getKey_setKey_self (m : List (List Char × JValue)) (key : List Char)
    (v : JValue) : getKey (setKey m key v) key = some v := by
  rw [setKey]
  by_cases h : (getKey m key).isSome = true
  · rw [if_pos h]
    exact getKey_update_map m key v h
  · rw [if_neg h]
    exact getKey_append_self m key v (Option.not_isSome_iff_eq_none.mp h)

/-- Updating one key leaves the other keys unchanged. -/
theorem getKey_setKey_other (m : List (List Char × JValue)) (key other : List Char)
    (v : JValue) (hne : other ≠ key) :
    getKey (setKey m key v) other = getKey m other := by
  rw [setKey]
  by_cases h : (getKey m key).isSome = true
  · rw [if_pos h]
    exact getKey_update_map_other m key other v hne
  · rw [if_neg h]
    exact getKey_append_other m key other v hne

/-- A falsy optional leaves the context untouched. -/
theorem addIfTruthy_falsy (m : List (List Char × JValue)) (key : List Char)
    (o : Option (List Char)) (h : truthy o = false) :
    addIfTruthy m key o = m := by
  cases o with
  | none => rfl
  | some s =>
      have hs : s.isEmpty = true := by simpa [truthy] using h
      simp [addIfTruthy, hs]

/-- A truthy optional folds its value in at the given key. -/
theorem getKey_addIfTruthy_self (m : List (List Char × JValue)) (key : List Char)
    (s : List Char) (h : s.isEmpty = false) :
    getKey (addIfTruthy m key (some s)) key = some (.vstr s) := by
  simp [addIfTruthy, h, getKey_setKey_self]

/-- Folding one optional in does not disturb other keys. -/
theorem getKey_addIfTruthy_other (m : List (List Char × JValue))
    (key other : List Char) (o : Option (List Char)) (hne : other ≠ key) :
    getKey (addIfTruthy m key o) other = getKey m other := by
  cases o with
  | none => rfl
  | some s =>
      by_cases hs : s.isEmpty = true
      · simp [addIfTruthy, hs]
      · rw [addIfTruthy, if_neg hs]
        exact getKey_setKey_other m key other _ hne

/-! ## C7: tags omission and context folding -/

/-- C7: `toPayload` omits the `tags` field exactly when the notice's tag list
is empty and otherwise includes it as the (non-empty) tag list; environment,
app name and revision appear in the context block under their fixed key names
when present (and truthy) on the notice, and are absent when the notice lacks
them (and the notice's own context has no entry under that key). -/
theorem payload_tags_context_fields (n : Notice) :
    ((toPayload n).error.tags = none ↔ n.tags = [])
    ∧ (∀ ts, (toPayload n).error.tags = some ts → ts ≠ [] ∧ ts = n.tags)
    ∧ (∀ s, n.environment = some s → s.isEmpty = false →
        getKey (toPayload n).context ENV_KEY = some (.vstr s))
    ∧ (∀ s, n.appName = some s → s.isEmpty = false →
        getKey (toPayload n).context APP_NAME_KEY = some (.vstr s))
    ∧ (∀ s, n.revision = some s → s.isEmpty = false →
        getKey (toPayload n).context REVISION_KEY = some (.vstr s))
    ∧ (truthy n.environment = false → getKey n.context ENV_KEY = none →
        getKey (toPayload n).context ENV_KEY = none)
    ∧ (truthy n.appName = false → getKey n.context APP_NAME_KEY = none →
        getKey (toPayload n).context APP_NAME_KEY = none)
    ∧ (truthy n.revision = false → getKey n.context REVISION_KEY = none →
        getKey (toPayload n).context REVISION_KEY = none) := by
  have hctx : (toPayload n).context
      = addIfTruthy
          (addIfTruthy (addIfTruthy n.context ENV_KEY n.environment)
            APP_NAME_KEY n.appName)
          REVISION_KEY n.revision := rfl
  have henv_app : ENV_KEY ≠ APP_NAME_KEY := by decide
  have henv_rev : ENV_KEY ≠ REVISION_KEY := by decide
  have happ_env : APP_NAME_KEY ≠ ENV_KEY := by decide
  have happ_rev : APP_NAME_KEY ≠ REVISION_KEY := by decide
  have hrev_env : REVISION_KEY ≠ ENV_KEY := by decide
  have hrev_app : REVISION_KEY ≠ APP_NAME_KEY := by decide
  refine ⟨?_, ?_, ?_, ?_, ?_, ?_, ?_, ?_⟩
  · show (if n.tags.length > 0 then some n.tags else none) = none ↔ n.tags = []
    by_cases ht : n.tags.length > 0
    · rw [if_pos ht]
      constructor
      · intro h
        exact Option.noConfusion h
      · intro h
        rw [h] at ht
        simp at ht
    · rw [if_neg ht]
      simp only [true_iff]
      exact List.length_eq_zero.mp (by omega)
  · intro ts hts
    by_cases ht : n.tags.length > 0
    · have : (toPayload n).error.tags = some n.tags := by
        show (if n.tags.length > 0 then some n.tags else none) = _
        rw [if_pos ht]
      rw [this] at hts
      obtain rfl : n.tags = ts := by injection hts
      exact ⟨by intro h; rw [h] at ht; simp at ht, rfl⟩
    · have : (toPayload n).error.tags = none := by
        show (if n.tags.length > 0 then some n.tags else none) = _
        rw [if_neg ht]
      rw [this] at hts
      exact Option.noConfusion hts
  · intro s hs hne
    rw [hctx, getKey_addIfTruthy_other _ _ _ _ henv_rev,
      getKey_addIfTruthy_other _ _ _ _ henv_app, hs,
      getKey_addIfTruthy_self _ _ _ hne]
  · intro s hs hne
    rw [hctx, getKey_addIfTruthy_other _ _ _ _ happ_rev, hs,
      getKey_addIfTruthy_self _ _ _ hne]
  · intro s hs hne
    rw [hctx, hs, getKey_addIfTruthy_self _ _ _ hne]
  · intro hf habs
    rw [hctx, getKey_addIfTruthy_other _ _ _ _ henv_rev,
      getKey_addIfTruthy_other _ _ _ _ henv_app, addIfTruthy_falsy _ _ _ hf, habs]
  · intro hf habs
    rw [hctx, getKey_addIfTruthy_other _ _ _ _ happ_rev,
      addIfTruthy_falsy _ _ _ hf, getKey_addIfTruthy_other _ _ _ _ happ_env, habs]
  · intro hf habs
    rw [hctx, addIfTruthy_falsy _ _ _ hf,
      getKey_addIfTruthy_other _ _ _ _ hrev_app,
      getKey_addIfTruthy_other _ _ _ _ hrev_env, habs]

/-- Witness for C7 at a concrete notice: one tag is kept as a non-empty list,
a present environment lands in the context block, and an absent app name stays
out of it. -/
theorem payload_tags_context_fields_witness :
    (getKey (toPayload
        { errorClass := ("Boom").toList, message := ("x").toList,
          backtrace := [], fingerprint := none, tags := [('t' :: [])],
          context := [], request := [], user := [],
          environment := some (("production").toList), occurredAt := [],
          appName := none, revision := none }).context ENV_KEY
      = some (.vstr (("production").toList)))
    ∧ (getKey (toPayload
        { errorClass := ("Boom").toList, message := ("x").toList,
          backtrace := [], fingerprint := none, tags := [('t' :: [])],
          context := [], request := [], user := [],
          environment := some (("production").toList), occurredAt := [],
          appName := none, revision := none }).context APP_NAME_KEY = none) := by
  constructor
  · exact (payload_tags_context_fields _).2.2.1 _ rfl (by decide)
  · exact (payload_tags_context_fields _).2.2.2.2.2.2.1 rfl rfl

/-! ## C8: filter-callback faults and vetoes -/

/-- C8: a raising callback is transparent to the send/drop decision; when no
earlier callback vetoes, all callbacks up to and past the raising one are
invoked and the final decision is made by the later callbacks alone; and any
callback returning false drops the notice. -/
theorem before_notify_fault_tolerance (as bs : List CbOutcome) :
    noticeSent (as ++ CbOutcome.raises :: bs) = noticeSent (as ++ bs)
    ∧ ((∀ c ∈ as, c ≠ CbOutcome.vetoes) →
        (runBeforeNotifyCallbacks (as ++ CbOutcome.raises :: bs)).2
          = as.length + 1 + (runBeforeNotifyCallbacks bs).2
        ∧ noticeSent (as ++ CbOutcome.raises :: bs) = noticeSent bs)
    ∧ ((∀ c ∈ as, c ≠ CbOutcome.vetoes) →
        noticeSent (as ++ CbOutcome.vetoes :: bs) = false) := by
  induction as with
  | nil =>
      refine ⟨by simp [noticeSent, runBeforeNotifyCallbacks], ?_, ?_⟩
      · intro _
        constructor
        · simp [runBeforeNotifyCallbacks]
          omega
        · simp [noticeSent, runBeforeNotifyCallbacks]
      · intro _
        simp [noticeSent, runBeforeNotifyCallbacks]
  | cons c rest ih =>
      refine ⟨?_, ?_, ?_⟩
      · cases c with
        | vetoes => simp [noticeSent, runBeforeNotifyCallbacks]
        | proceeds =>
            simp only [List.cons_append, noticeSent, runBeforeNotifyCallbacks]
            exact ih.1
        | raises =>
            simp only [List.cons_append, noticeSent, runBeforeNotifyCallbacks]
            exact ih.1
      · intro hnv
        have hc : c ≠ CbOutcome.vetoes := hnv c (List.mem_cons_self c rest)
        have hrest : ∀ x ∈ rest, x ≠ CbOutcome.vetoes :=
          fun x hx => hnv x (List.mem_cons_of_mem c hx)
        have hr := (ih.2.1) hrest
        cases c with
        | vetoes => exact absurd rfl hc
        | proceeds =>
            constructor
            · simp only [List.cons_append, runBeforeNotifyCallbacks, List.append_eq]
              rw [hr.1]
              simp [List.length_cons]
              omega
            · simp only [List.cons_append, noticeSent, runBeforeNotifyCallbacks]
              exact hr.2
        | raises =>
            constructor
            · simp only [List.cons_append, runBeforeNotifyCallbacks, List.append_eq]
              rw [hr.1]
              simp [List.length_cons]
              omega
            · simp only [List.cons_append, noticeSent, runBeforeNotifyCallbacks]
              exact hr.2
      · intro hnv
        have hc : c ≠ CbOutcome.vetoes := hnv c (List.mem_cons_self c rest)
        have hrest : ∀ x ∈ rest, x ≠ CbOutcome.vetoes :=
          fun x hx => hnv x (List.mem_cons_of_mem c hx)
        cases c with
        | vetoes => exact absurd rfl hc
        | proceeds =>
            simp only [List.cons_append, noticeSent, runBeforeNotifyCallbacks]
            exact (ih.2.2) hrest
        | raises =>
            simp only [List.cons_append, noticeSent, runBeforeNotifyCallbacks]
            exact (ih.2.2) hrest

/-- Witness for C8 at a concrete callback list: with one well-behaved callback
before a raising one, both callbacks and the ones after the raise run, the
notice is still sent when nobody vetoes, and a veto after the raise drops
it. -/
theorem before_notify_fault_tolerance_witness :
    (runBeforeNotifyCallbacks
        ([CbOutcome.proceeds] ++ CbOutcome.raises :: [CbOutcome.proceeds])).2 = 3
    ∧ noticeSent ([CbOutcome.proceeds] ++ CbOutcome.raises :: [CbOutcome.proceeds]) = true
    ∧ noticeSent ([CbOutcome.proceeds] ++ CbOutcome.vetoes :: []) = false := by
  have h := before_notify_fault_tolerance [CbOutcome.proceeds] [CbOutcome.proceeds]
  have hnv : ∀ c ∈ [CbOutcome.proceeds], c ≠ CbOutcome.vetoes := by decide
  have h2 := h.2.1 hnv
  refine ⟨by rw [h2.1]; decide, by rw [h2.2]; decide, ?_⟩
  have h3 := before_notify_fault_tolerance [CbOutcome.proceeds] ([] : List CbOutcome)
  exact h3.2.2 hnv

/-! ## C6: transport classification -/

/-- C6: the single-attempt send returns the parsed body exactly on HTTP 201,
and null on every non-201 status, on an unparseable 201 body, on timeout and
on network error; a non-null result can only come from a 201 response. -/
theorem client_send_classification (o : FetchOutcome) :
    (∀ status body, o = .response status body → status ≠ 201 → send o = none)
    ∧ (∀ r, o = .response 201 (some r) → send o = some r)
    ∧ (o = .response 201 none → send o = none)
    ∧ (o = .timedOut → send o = none)
    ∧ (o = .networkError → send o = none)
    ∧ (∀ r, send o = some r → o = .response 201 (some r)) := by
  refine ⟨?_, ?_, ?_, ?_, ?_, ?_⟩
  · intro status body ho hs
    subst ho
    simp [send, handleResponse, hs]
  · intro r ho
    subst ho
    simp [send, handleResponse]
  · intro ho
    subst ho
    simp [send, handleResponse]
  · intro ho
    subst ho
    simp [send]
  · intro ho
    subst ho
    simp [send]
  · intro r hr
    cases o with
    | response status body =>
        by_cases hs : status = 201
        · subst hs
          have hb : send (.response 201 body) = body := by
            simp [send, handleResponse]
          rw [hb] at hr
          rw [hr]
        · simp [send, handleResponse, hs] at hr
    | timedOut => simp [send] at hr
    | networkError => simp [send] at hr

/-- Witness for C6 at concrete outcomes: a 201 with body `{id:1,problem_id:2}`
succeeds, a 429 returns null, and a timeout returns null. -/
theorem client_send_classification_witness :
    send (.response 201 (some ⟨1, 2⟩)) = some ⟨1, 2⟩
    ∧ send (.response 429 none) = none
    ∧ send .timedOut = none := by
  refine ⟨(client_send_classification _).2.1 _ rfl, ?_, ?_⟩
  · exact (client_send_classification _).1 429 none rfl (by omega)
  · exact (client_send_classification _).2.2.2.1 rfl

/-- Accepted pushes append serialized payloads in order and leave the other
state fields unchanged. -/
theorem pushAll_accepts (maxQ : Nat) (ns : List Notice) :
    ∀ st : WorkerState, st.shutdown = false →
      st.queue.length + ns.length ≤ maxQ →
      (pushAll maxQ st ns).1.queue
          = st.queue ++ ns.map (fun n => QueueItem.payload (toPayload n))
      ∧ (pushAll maxQ st ns).2 = ns.map (fun _ => true)
      ∧ (pushAll maxQ st ns).1.shutdown = false := by
  induction ns with
  | nil =>
      intro st hsd _
      rw [pushAll]
      exact ⟨by simp, rfl, hsd⟩
  | cons n rest ih =>
      intro st hsd hlen
      have hcap : ¬(st.queue.length ≥ maxQ) := by
        simp only [List.length_cons] at hlen
        omega
      have hpush : push maxQ st n
          = ({ st with queue := st.queue ++ [.payload (toPayload n)] }, true) := by
        rw [push, if_neg (by simp [hsd]), if_neg hcap]
      have hlen' : ({ st with queue := st.queue ++ [.payload (toPayload n)] }
          : WorkerState).queue.length + rest.length ≤ maxQ := by
        simp only [List.length_cons] at hlen
        simp only [List.length_append, List.length_cons, List.length_nil]
        omega
      have hr := ih _ (by simp [hsd]) hlen'
      have hun : pushAll maxQ st (n :: rest)
          = ((pushAll maxQ { st with queue := st.queue ++ [.payload (toPayload n)] } rest).1,
             true :: (pushAll maxQ
               { st with queue := st.queue ++ [.payload (toPayload n)] } rest).2) := by
        simp only [pushAll, hpush]
      rw [hun]
      refine ⟨?_, ?_, hr.2.2⟩
      · rw [hr.1]
        simp
      · rw [List.map_cons, hr.2.1]

/-- Draining a queue of bare payloads sends exactly those payloads in FIFO
order. -/
theorem processQueue_payloads (ok : Nat → Bool) (ps : List NoticePayload) :
    ∀ t i, (processQueue ok (ps.map QueueItem.payload) t i).sent = ps
      ∧ (processQueue ok (ps.map QueueItem.payload) t i).abandoned = [] := by
  induction ps with
  | nil => intro t i; exact ⟨rfl, rfl⟩
  | cons p rest ih =>
      intro t i
      rw [List.map_cons, processQueue]
      exact ⟨by simp [(ih _ _).1], by simp [(ih _ _).2]⟩

/-- Draining payloads followed by a shutdown marker sends exactly the
payloads, then stops at the marker and abandons everything behind it. -/
theorem processQueue_shutdown (ok : Nat → Bool) (ps : List NoticePayload)
    (rest : List QueueItem) :
    ∀ t i,
      (processQueue ok (ps.map QueueItem.payload ++ QueueItem.shutdownMarker :: rest) t i).sent
        = ps
      ∧ (processQueue ok
            (ps.map QueueItem.payload ++ QueueItem.shutdownMarker :: rest) t i).abandoned
        = rest := by
  induction ps with
  | nil =>
      intro t i
      rw [List.map_nil, List.nil_append, processQueue]
      exact ⟨rfl, rfl⟩
  | cons p tail ih =>
      intro t i
      rw [List.map_cons, List.cons_append, processQueue]
      exact ⟨by simp [(ih _ _).1], by simp [(ih _ _).2]⟩

/-! ## C3: FIFO, exactly-once, shutdown abandonment -/

/-- C3: starting from an idle, empty, non-shutdown queue, pushing N notices
accepts them all and enqueues their payloads in push order; draining then
hands the transport exactly those N payloads in FIFO order — the drain loop
awaits each send before popping the next item by construction of the
sequential loop — and a shutdown marker ends the loop immediately, abandoning
every item queued behind it. -/
theorem drain_fifo_exact (maxQ : Nat) (st : WorkerState) (ns : List Notice)
    (ok : Nat → Bool) (t : Nat)
    (hsd : st.shutdown = false) (hq : st.queue = []) (hlen : ns.length ≤ maxQ) :
    (pushAll maxQ st ns).2 = ns.map (fun _ => true)
    ∧ (processQueue ok ((pushAll maxQ st ns).1.queue) t 0).sent = ns.map toPayload
    ∧ ∀ rest : List QueueItem,
        (processQueue ok
            ((pushAll maxQ st ns).1.queue ++ QueueItem.shutdownMarker :: rest) t 0).sent
          = ns.map toPayload
        ∧ (processQueue ok
            ((pushAll maxQ st ns).1.queue ++ QueueItem.shutdownMarker :: rest) t 0).abandoned
          = rest := by
  have hacc := pushAll_accepts maxQ ns st hsd (by rw [hq]; simpa using hlen)
  have hqueue : (pushAll maxQ st ns).1.queue
      = (ns.map toPayload).map QueueItem.payload := by
    rw [hacc.1, hq, List.nil_append, List.map_map]
    rfl
  refine ⟨hacc.2.1, ?_, ?_⟩
  · rw [hqueue]
    exact (processQueue_payloads ok (ns.map toPayload) t 0).1
  · intro rest
    rw [hqueue]
    exact processQueue_shutdown ok (ns.map toPayload) rest t 0

/-- Witness for C3 with two concrete notices: both pushes are accepted, the
drain delivers their payloads in push order, and items behind a shutdown
marker are abandoned. -/
theorem drain_fifo_exact_witness :
    (processQueue (fun _ => true)
        ((pushAll 10 ⟨[], false, false, 0⟩ [sampleNotice 'A', sampleNotice 'B']).1.queue)
        0 0).sent
      = [toPayload (sampleNotice 'A'), toPayload (sampleNotice 'B')] :=
  (drain_fifo_exact 10 ⟨[], false, false, 0⟩ [sampleNotice 'A', sampleNotice 'B']
    (fun _ => true) 0 rfl rfl (by simp)).2.1

/-! ## C4: throttle delay and level updates -/

/-- C4: at every throttle level K, the throttle-aware send path sleeps
exactly `round((1.05^K - 1) * 1000)` milliseconds before the send attempt
when K is above zero and does not sleep at level zero; on every failed send
the level becomes `min(K+1, 100)` and on every successful send it becomes
`K - 1` (truncated at zero), with no restriction on K. -/
theorem throttle_send_behavior (K : Nat) (ok : Bool) :
    (0 < K →
      (sendWithThrottle K ok).1 = some (round ((((105 : ℚ) / 100) ^ K - 1) * 1000)))
    ∧ (K = 0 → (sendWithThrottle K ok).1 = none)
    ∧ (sendWithThrottle K false).2 = min (K + 1) 100
    ∧ (sendWithThrottle K true).2 = K - 1 := by
  refine ⟨?_, ?_, ?_, ?_⟩
  · intro hK
    simp [sendWithThrottle, throttleDelay, hK]
  · intro hK
    simp [sendWithThrottle, hK]
  · simp [sendWithThrottle, incThrottle, MAX_THROTTLE]
  · simp [sendWithThrottle, decThrottle]

/-- Witness for C4 at levels 3 and 0: at level 3 the sleep is
round((1.05³−1)·1000) = 158 ms, a failure raises the level to 4 and a success
lowers it to 2; at level 0 there is no sleep, a failure raises the level to 1
and a success keeps it floored at 0. -/
theorem throttle_send_behavior_witness :
    (sendWithThrottle 3 true).1 = some 158
    ∧ (sendWithThrottle 3 false).2 = 4
    ∧ (sendWithThrottle 3 true).2 = 2
    ∧ (sendWithThrottle 0 true).1 = none
    ∧ (sendWithThrottle 0 false).2 = 1
    ∧ (sendWithThrottle 0 true).2 = 0 := by
  have h3 := throttle_send_behavior 3 true
  have h0 := throttle_send_behavior 0 true
  refine ⟨?_, ?_, h3.2.2.2, h0.2.1 rfl, ?_, ?_⟩
  · rw [h3.1 (by omega)]
    norm_num [round_eq]
  · rw [(throttle_send_behavior 3 false).2.2.1]
    decide
  · rw [(throttle_send_behavior 0 false).2.2.1]
    decide
  · rw [h0.2.2.2]

/-! ## C9: push rejection semantics -/

/-- C9: `push` returns false with the state (hence queue) unchanged when
shutdown has begun or the queue is at capacity; otherwise it appends the
serialized payload, returns true, and the drain loop starts exactly when it
was idle; and every push after `stop` returns false with the queue
unchanged. -/
theorem push_reject_semantics (maxQ : Nat) (st : WorkerState) (n : Notice) :
    ((st.shutdown = true ∨ maxQ ≤ st.queue.length) → push maxQ st n = (st, false))
    ∧ (st.shutdown = false → st.queue.length < maxQ →
        push maxQ st n
            = ({ st with queue := st.queue ++ [.payload (toPayload n)] }, true)
        ∧ startsDrainLoop (push maxQ st n).1 = !st.processing)
    ∧ ((push maxQ (stop st) n).2 = false
        ∧ (push maxQ (stop st) n).1.queue = (stop st).queue) := by
  refine ⟨?_, ?_, ?_⟩
  · intro h
    cases h with
    | inl hsd => rw [push, if_pos hsd]
    | inr hcap =>
        by_cases hsd : st.shutdown = true
        · rw [push, if_pos hsd]
        · rw [push, if_neg hsd, if_pos (by omega)]
  · intro hsd hcap
    have hpush : push maxQ st n
        = ({ st with queue := st.queue ++ [.payload (toPayload n)] }, true) := by
      rw [push, if_neg (by simp [hsd]), if_neg (by omega)]
    refine ⟨hpush, ?_⟩
    rw [hpush]
    simp [startsDrainLoop]
  · have hsd : (stop st).shutdown = true := by
      rw [stop]
      by_cases h : st.shutdown = true
      · rw [if_pos h]
        exact h
      · rw [if_neg h]
    have hpush : push maxQ (stop st) n = (stop st, false) := by
      rw [push, if_pos hsd]
    rw [hpush]
    exact ⟨rfl, rfl⟩

/-- Witness for C9 at concrete states: push onto a full one-slot queue fails
and leaves the queue unchanged; push onto an idle empty queue is accepted and
starts the drain loop; push after stop fails with the queue unchanged. -/
theorem push_reject_semantics_witness :
    push 1 ⟨[QueueItem.flushMarker], false, false, 0⟩ (sampleNotice 'A')
      = (⟨[QueueItem.flushMarker], false, false, 0⟩, false)
    ∧ startsDrainLoop (push 10 ⟨[], false, false, 0⟩ (sampleNotice 'A')).1 = true
    ∧ (push 10 (stop ⟨[], false, false, 0⟩) (sampleNotice 'A')).2 = false := by
  refine ⟨?_, ?_, ?_⟩
  · exact (push_reject_semantics 1 ⟨[QueueItem.flushMarker], false, false, 0⟩
      (sampleNotice 'A')).1 (Or.inr (by simp))
  · have h := ((push_reject_semantics 10 ⟨[], false, false, 0⟩
        (sampleNotice 'A')).2.1 rfl (by simp)).2
    rw [h]
    rfl
  · exact (push_reject_semantics 10 ⟨[], false, false, 0⟩ (sampleNotice 'A')).2.2.1

/-! ## C10: markers bypass the capacity bound -/

/-- C10: the capacity bound guards only `push`: `stop` (before shutdown has
begun) appends the shutdown marker and `flush` appends the flush marker with
no capacity check at all, and `flush` with no shutdown check either — both
succeed however long the queue already is. -/
theorem markers_bypass_capacity (st : WorkerState) :
    (st.shutdown = false → (stop st).queue = st.queue ++ [QueueItem.shutdownMarker])
    ∧ (flush st).queue = st.queue ++ [QueueItem.flushMarker] := by
  constructor
  · intro hsd
    rw [stop, if_neg (by simp [hsd])]
  · rfl

/-- Witness for C10 on a queue already holding two items (i.e. at a capacity
of two): stop still appends its shutdown marker and flush, even after
shutdown has begun, still appends its flush marker. -/
theorem markers_bypass_capacity_witness :
    (stop ⟨[QueueItem.flushMarker, QueueItem.flushMarker], false, false, 0⟩).queue
      = [QueueItem.flushMarker, QueueItem.flushMarker, QueueItem.shutdownMarker]
    ∧ (flush ⟨[QueueItem.flushMarker, QueueItem.flushMarker], false, true, 0⟩).queue
      = [QueueItem.flushMarker, QueueItem.flushMarker, QueueItem.flushMarker] := by
  constructor
  · rw [(markers_bypass_capacity
      ⟨[QueueItem.flushMarker, QueueItem.flushMarker], false, false, 0⟩).1 rfl]
    rfl
  · rw [(markers_bypass_capacity
      ⟨[QueueItem.flushMarker, QueueItem.flushMarker], false, true, 0⟩).2]
    rfl

end Checkend
